import Mathlib

/-!
Shallow embedding of the daily-discord-summarizer pipeline (Rust) used to
check its natural-language specification against the code.  Text is modelled
as `List Char`, mirroring a Rust `str` viewed through `chars()`; the timestamp
column of the store (`NaiveDateTime`) is modelled as `Int`; fallible
operations return `Option`/`Except`, with `none`/`.error` for the failing
outcome and `none` at the level of a whole stage step standing for a panic
(`unwrap`/`expect`) that terminates the stage's task.
-/

/-- Number of characters per estimated token (src/gpt.rs, `CHARS_PER_TOKEN`). -/
def CHARS_PER_TOKEN : Nat := 4

/-- One chat message as consumed by the pipeline (the fields of the serenity
message the code reads): timestamp, author name, content. -/
structure Msg where
  timestamp : List Char
  author : List Char
  content : List Char
deriving DecidableEq

/-- Splits `s` at the first occurrence of the pattern `sep`, returning the
part before it and the part after it (the pattern removed), or `none` when
`sep` does not occur.  This embeds one step of Rust `str::split` with a
string pattern. -/
def breakOnSub (sep : List Char) : List Char → Option (List Char × List Char)
  | [] => none
  | c :: rest =>
    if sep.isPrefixOf (c :: rest) then some ([], (c :: rest).drop sep.length)
    else
      match breakOnSub sep rest with
      | none => none
      | some (pre, post) => some (c :: pre, post)

/-- Embeds Rust `s.split(sep).nth(1)` (src/gpt.rs line 57): the second piece
of the split, i.e. the text strictly between the first occurrence of `sep`
and the next occurrence (or the end of the string). -/
def secondPiece (sep s : List Char) : Option (List Char) :=
  match breakOnSub sep s with
  | none => none
  | some (_, post) =>
    match breakOnSub sep post with
    | none => some post
    | some (pre2, _) => some pre2

/-- Splits a string at every occurrence of the single character `d` (used with
`d = newline` to embed the line iterator of `str::lines`). -/
def splitChar (d : Char) : List Char → List (List Char)
  | [] => [[]]
  | c :: rest =>
    if c = d then [] :: splitChar d rest
    else
      match splitChar d rest with
      | [] => [[c]]
      | p :: ps => (c :: p) :: ps

/-- Embeds Rust `str::lines` on the file contents: split at newlines, with the
empty piece produced by a trailing newline dropped (carriage returns are not
modelled; no content written by this program contains them). -/
def linesOf (contents : List Char) : List (List Char) :=
  match (splitChar '\n' contents).getLast? with
  | some [] => (splitChar '\n' contents).dropLast
  | _ => splitChar '\n' contents

/-- Embeds Rust `str::trim`: whitespace removed from both ends. -/
def trimChars (s : List Char) : List Char :=
  ((s.dropWhile Char.isWhitespace).reverse.dropWhile Char.isWhitespace).reverse

/-- Embeds `Vec<String>::join(" ")` (src/gpt.rs line 61). -/
def joinSpace : List (List Char) → List Char
  | [] => []
  | [x] => x
  | x :: y :: rest => x ++ ' ' :: joinSpace (y :: rest)

/-- The text a line contributes to the estimate:
`line.split("content: ").nth(1)` (src/gpt.rs line 57). -/
def extractContent (line : List Char) : Option (List Char) :=
  secondPiece ("content: ".data) line

/-- Embeds `estimate_token_count` (src/gpt.rs lines 53-63) applied to the
contents of a segment file: for each line take the text after the first
`"content: "` marker, trim it, join the pieces with single spaces, and divide
the character count by `CHARS_PER_TOKEN`. -/
def estimate_token_count (contents : List Char) : Nat :=
  ((joinSpace
      ((linesOf contents).filterMap
        (fun line => (extractContent line).map trimChars))).length)
    / CHARS_PER_TOKEN

/-! ## Message Batcher (src/services/message_listener.rs) -/

/-- Environment verdicts for the fallible operations of one `ingest` step of
`MessageLogService::run`: opening the next segment file on rotation
(`OpenOptions::open`, `expect`-ed), sending the summarize request
(`Sender::send`, `unwrap`-ed), and appending the formatted line (`writeln!`,
logged and skipped on failure). -/
structure BatcherEnv where
  openOk : Bool
  sendOk : Bool
  writeOk : Bool
deriving DecidableEq

/-- The state `MessageLogService` owns, with the file system it touches folded
in: the active segment's index and raw contents, the recomputed running token
count, the closed segments left on disk, and the summarize requests emitted in
order. -/
structure BatcherState where
  logFileIndex : Nat
  currFileTokenCount : Nat
  activeFile : List Char
  closedFiles : List (Nat × List Char)
  requests : List Nat
deriving DecidableEq

/-- One formatted log line (src/services/message_listener.rs lines 89-92),
without the newline `writeln!` appends. -/
def formatLine (m : Msg) : List Char :=
  "timestamp: ".data ++ m.timestamp ++ ", author: ".data ++ m.author
    ++ ", content: ".data ++ m.content

/-- The state after the rotation block (lines 64-83): a fresh empty segment at
`index + 1` is opened, a summarize request naming the old index is enqueued,
and the running count is reset to 0.  The old segment's file is left on disk
untouched. -/
def rotatedState (st : BatcherState) : BatcherState :=
  { logFileIndex := st.logFileIndex + 1
    currFileTokenCount := 0
    activeFile := []
    closedFiles := st.closedFiles ++ [(st.logFileIndex, st.activeFile)]
    requests := st.requests ++ [st.logFileIndex] }

/-- The write-and-count part of one step (lines 86-99): the formatted line and
a newline are appended to the active file and the incoming token count is
added to the running count. -/
def appendMessage (st : BatcherState) (m : Msg) (incoming : Nat) : BatcherState :=
  { st with
    activeFile := st.activeFile ++ formatLine m ++ ['\n']
    currFileTokenCount := st.currFileTokenCount + incoming }

/-- One iteration of `MessageLogService::run` for a received message
(src/services/message_listener.rs lines 55-101).  `none` is the panic of the
`expect`/`unwrap` on rotation-open or channel-send failure; a failed
`writeln!` skips the append and the count update but keeps running. -/
def ingest (threshold : Nat) (env : BatcherEnv) (st : BatcherState) (m : Msg) :
    Option BatcherState :=
  let incoming := m.content.length / CHARS_PER_TOKEN
  if st.currFileTokenCount + incoming > threshold then
    if env.openOk then
      if env.sendOk then
        if env.writeOk then some (appendMessage (rotatedState st) m incoming)
        else some (rotatedState st)
      else none
    else none
  else
    if env.writeOk then some (appendMessage st m incoming) else some st

/-- The all-operations-succeed environment. -/
def okEnv : BatcherEnv := ⟨true, true, true⟩

/-- A fresh batcher on an empty directory: active segment 0, empty, count 0. -/
def initState : BatcherState := ⟨0, 0, [], [], []⟩

/-- A whole run of the batcher over a message sequence with every file and
channel operation succeeding, starting from a fresh segment 0. -/
def runIngest (threshold : Nat) (msgs : List Msg) : Option BatcherState :=
  List.foldlM (ingest threshold okEnv) initState msgs

/-- The raw file contents produced by appending each message's formatted line
plus a newline. -/
def concatLines : List Msg → List Char
  | [] => []
  | m :: rest => formatLine m ++ '\n' :: concatLines rest

/-! ## Startup discovery (src/services/message_listener.rs lines 107-127) -/

/-- Embeds Rust `str::trim_start_matches` by fuel (the fuel `s.length` always
suffices): repeatedly strips the pattern from the front while it is a prefix. -/
def trimStartGo (pat : List Char) : Nat → List Char → List Char
  | 0, s => s
  | Nat.succ fuel, s =>
    if pat.isPrefixOf s && !pat.isEmpty then trimStartGo pat fuel (s.drop pat.length)
    else s

/-- Rust `s.trim_start_matches(pat)`: all leading repetitions of `pat` removed. -/
def trimStartMatches (pat s : List Char) : List Char :=
  trimStartGo pat s.length s

/-- Rust `s.trim_end_matches(pat)`: all trailing repetitions of `pat` removed. -/
def trimEndMatches (pat s : List Char) : List Char :=
  (trimStartMatches pat.reverse s.reverse).reverse

/-- Embeds `str::parse::<usize>`: an optional leading `+`, then one or more
digits, rejecting values beyond `usize::MAX` (64-bit). -/
def parseUsize (s : List Char) : Option Nat :=
  let digits := match s with
    | '+' :: rest => rest
    | _ => s
  if digits.isEmpty || !digits.all Char.isDigit then none
  else
    let v := digits.foldl (fun acc c => acc * 10 + (c.toNat - '0'.toNat)) 0
    if v < 2 ^ 64 then some v else none

/-- The index the scan of `find_last_log_file_index` extracts from one file
name (lines 114-121): names starting with `messages_` and ending with `.txt`
have ALL leading `messages_` repetitions and ALL trailing `.txt` repetitions
stripped (Rust `trim_start_matches`/`trim_end_matches`) and the rest parsed. -/
def parseLogIndex (name : List Char) : Option Nat :=
  if ("messages_".data.isPrefixOf name && ".txt".data.isSuffixOf name) then
    parseUsize (trimEndMatches ".txt".data (trimStartMatches "messages_".data name))
  else none

/-- Embeds `find_last_log_file_index` (lines 107-127) on the directory's file
names: the maximum extracted index, or `none` when no name yields one. -/
def find_last_log_file_index (names : List (List Char)) : Option Nat :=
  (names.filterMap parseLogIndex).max?

/-- Modelled from the spec's words for comparison (`discoverActiveIndex`
"scans file names matching the segment naming pattern, parses the embedded
index"): a name of the form `messages_<index>.txt` has exactly the one
leading `messages_` and the one trailing `.txt` removed before parsing. -/
def specParseLogIndex (name : List Char) : Option Nat :=
  if ("messages_".data.isPrefixOf name && ".txt".data.isSuffixOf name) then
    parseUsize
      ((name.drop ("messages_".data.length)).take
        ((name.drop ("messages_".data.length)).length - ".txt".data.length))
  else none

/-- The spec-worded discovery: maximum over `specParseLogIndex`. -/
def specDiscoverIndex (names : List (List Char)) : Option Nat :=
  (names.filterMap specParseLogIndex).max?

/-- Embeds `MessageLogService::new` (lines 24-50) given the directory as an
association list of file name and contents: adopt the discovered index (0 when
none), open that file (its contents empty when absent) and recompute the
running token count by replaying it through the estimator. -/
def initBatcher (dir : List (List Char × List Char)) : BatcherState :=
  let idx := (find_last_log_file_index (dir.map Prod.fst)).getD 0
  let fname := "messages_".data ++ Nat.toDigits 10 idx ++ ".txt".data
  let contents := (List.lookup fname dir).getD []
  { logFileIndex := idx
    currFileTokenCount := estimate_token_count contents
    activeFile := contents
    closedFiles := []
    requests := [] }

/-! ## Relational store (src/db.rs) -/

/-- A row of the `summaries` table (src/db.rs lines 7-13).  The autoincrement
rowid is modelled as `Nat`, the `NaiveDateTime` timestamp as `Int`. -/
structure Summary where
  id : Nat
  daily_digest_id : Option Nat
  text : List Char
  timestamp : Int
deriving DecidableEq

/-- A row of the `daily_digests` table (src/db.rs lines 15-20). -/
structure DigestRow where
  id : Nat
  text : List Char
  timestamp : Int
deriving DecidableEq

/-- The relational store: the two tables, rows in insertion order. -/
structure Store where
  summaries : List Summary
  digests : List DigestRow
deriving DecidableEq

/-- Embeds `insert_summary` (src/db.rs lines 37-47): a new row with no
digest-link; the store supplies the rowid and the default timestamp. -/
def insert_summary (ss : List Summary) (text : List Char) (newId : Nat) (now : Int) :
    List Summary :=
  ss ++ [{ id := newId, daily_digest_id := none, text := text, timestamp := now }]

/-! ## Summarizer Worker (src/services/summarizer.rs) -/

/-- Environment verdicts for one summarize request: whether the segment read
succeeds, the oracle's answer, whether the summary insert succeeds (with the
rowid and default timestamp the store would assign), and whether the file
deletion succeeds. -/
structure SummEnv where
  readOk : Bool
  oracle : List Char → Except Unit (List Char)
  insertOk : Bool
  newId : Nat
  now : Int
  deleteOk : Bool

/-- The externally visible operations one request handling attempts, in
order. -/
inductive SummEffect where
  | fsRead
  | oracleCall
  | dbInsert
  | fsDelete
deriving DecidableEq

/-- One iteration of `SummarizerService::run` for `FileWithIndex i`
(src/services/summarizer.rs lines 32-66) over the segment directory `fs`
(index to raw contents) and the summaries table `ss`: read the file (failure
or absence: log and skip), call the oracle (failure: log and skip, file kept),
insert the summary (failure: log and skip, file kept), and only then delete
the file (failure merely logged, the row stays).  Returns the directory, the
table, and the effects attempted. -/
def summarizerStep (env : SummEnv) (fs : List (Nat × List Char)) (ss : List Summary)
    (i : Nat) : List (Nat × List Char) × List Summary × List SummEffect :=
  match (if env.readOk then List.lookup i fs else none) with
  | none => (fs, ss, [SummEffect.fsRead])
  | some contents =>
    match env.oracle contents with
    | Except.error _ => (fs, ss, [SummEffect.fsRead, SummEffect.oracleCall])
    | Except.ok summaryText =>
      if env.insertOk then
        (if env.deleteOk then fs.filter (fun p => p.1 != i) else fs,
         insert_summary ss summaryText env.newId env.now,
         [SummEffect.fsRead, SummEffect.oracleCall, SummEffect.dbInsert,
          SummEffect.fsDelete])
      else (fs, ss, [SummEffect.fsRead, SummEffect.oracleCall, SummEffect.dbInsert])

/-! ## Recap Aggregator (src/services/digests.rs, src/db.rs lines 83-110) -/

/-- Environment verdicts for the statements of one `insert_daily_digest`
transaction: the digest-row insert, each summary's link-update (by summary
id), and the final commit; plus the rowid and default timestamp the store
would assign to the digest row. -/
structure TxEnv where
  digestInsertOk : Bool
  updateOk : Nat → Bool
  commitOk : Bool
  newDigestId : Nat
  now : Int

/-- One `UPDATE summaries SET daily_digest_id = ? WHERE id = ?` statement. -/
def setLink (did : Nat) (sid : Nat) (ss : List Summary) : List Summary :=
  ss.map (fun s => if s.id = sid then { s with daily_digest_id := some did } else s)

/-- The link-update loop of the transaction (src/db.rs lines 97-105) applied
to the working (uncommitted) store; the first failing statement aborts. -/
def runUpdates (tx : TxEnv) (did : Nat) : List Nat → Store → Except Unit Store
  | [], w => Except.ok w
  | sid :: rest, w =>
    if tx.updateOk sid then
      runUpdates tx did rest { w with summaries := setLink did sid w.summaries }
    else Except.error ()

/-- Embeds `insert_daily_digest` (src/db.rs lines 83-110): inside one
transaction, insert the digest row, link every given summary id to it, and
commit; any failure rolls the whole transaction back, which the caller
observes as `Except.error` with the store unchanged. -/
def insert_daily_digest (tx : TxEnv) (st : Store) (digestText : List Char)
    (summaryIds : List Nat) : Except Unit Store :=
  if tx.digestInsertOk then
    match runUpdates tx tx.newDigestId summaryIds
        { st with
          digests := st.digests
            ++ [{ id := tx.newDigestId, text := digestText, timestamp := tx.now }] } with
    | Except.ok w => if tx.commitOk then Except.ok w else Except.error ()
    | Except.error e => Except.error e
  else Except.error ()

/-- The watermark query (src/services/digests.rs lines 31-37): the timestamp
of the digest row `ORDER BY timestamp DESC LIMIT 1` returns. -/
def lastRecap (st : Store) : Option Int :=
  (st.digests.map (fun d => d.timestamp)).max?

/-- The eligibility query (lines 39-52): with a prior digest at timestamp
`t0`, all summaries with `timestamp >= t0` ordered by timestamp ascending;
with no prior digest, all summaries in table order. -/
def recapEligible (st : Store) : List Summary :=
  match lastRecap st with
  | some t0 =>
    List.insertionSort (fun a b => a.timestamp ≤ b.timestamp)
      (st.summaries.filter (fun s => decide (t0 ≤ s.timestamp)))
  | none => st.summaries

/-- The space-joined text the oracle is asked to digest (lines 60-61). -/
def digestInput (st : Store) : List Char :=
  joinSpace ((recapEligible st).map (fun s => s.text))

/-- The ids collected for the link-updates (line 58). -/
def eligibleIds (st : Store) : List Nat :=
  (recapEligible st).map (fun s => s.id)

/-- Environment verdicts for one recap tick: whether the watermark query and
the eligibility query succeed (both `unwrap`-ed in the code), the oracle's
answer, and the transaction's statement verdicts. -/
structure RecapEnv where
  fetchLastOk : Bool
  fetchSummariesOk : Bool
  oracle : List Char → Except Unit (List Char)
  tx : TxEnv

/-- How one recap tick ended. -/
inductive RecapOutcome where
  | noSummaries
  | oracleFailed
  | txFailed
  | committed
deriving DecidableEq

/-- The externally visible non-read operations a tick attempts. -/
inductive RecapEffect where
  | oracleCall
  | storeWrite
deriving DecidableEq

/-- One timer tick of `DailyRecapService::run` (src/services/digests.rs lines
26-74).  `none` is the panic of the `unwrap` on a failed watermark or
eligibility query; an oracle or transaction failure logs and skips the tick,
leaving the store unchanged. -/
def recapTick (env : RecapEnv) (st : Store) :
    Option (Store × RecapOutcome × List RecapEffect) :=
  if env.fetchLastOk then
    if env.fetchSummariesOk then
      if (recapEligible st).isEmpty then some (st, RecapOutcome.noSummaries, [])
      else
        match env.oracle (digestInput st) with
        | Except.error _ =>
          some (st, RecapOutcome.oracleFailed, [RecapEffect.oracleCall])
        | Except.ok digestText =>
          match insert_daily_digest env.tx st digestText (eligibleIds st) with
          | Except.error _ =>
            some (st, RecapOutcome.txFailed,
              [RecapEffect.oracleCall, RecapEffect.storeWrite])
          | Except.ok st2 =>
            some (st2, RecapOutcome.committed,
              [RecapEffect.oracleCall, RecapEffect.storeWrite])
    else none
  else none

/-! ## Paginated read query (src/db.rs lines 112-127, src/http_api.rs) -/

/-- Rust `usize` subtraction: panics (no result) on underflow. -/
def checkedSub (a b : Nat) : Option Nat :=
  if b ≤ a then some (a - b) else none

/-- Rust `usize` multiplication: panics (no result) on overflow past
`usize::MAX` (64-bit). -/
def checkedMul (a b : Nat) : Option Nat :=
  if a * b < 2 ^ 64 then some (a * b) else none

/-- The value a `usize as i64` cast produces (two's-complement wrap). -/
def toI64 (n : Nat) : Int :=
  if n % 2 ^ 64 < 2 ^ 63 then ((n % 2 ^ 64 : Nat) : Int)
  else ((n % 2 ^ 64 : Nat) : Int) - 2 ^ 64

/-- The summaries `ORDER BY timestamp DESC`. -/
def summariesDesc (st : Store) : List Summary :=
  List.insertionSort (fun a b => b.timestamp ≤ a.timestamp) st.summaries

/-- Embeds `fetch_latest_summaries` (src/db.rs lines 112-127): the offset is
`count * (page - 1)` in `usize` arithmetic (underflow at `page = 0`, overflow
for huge pages: no result), then `LIMIT count OFFSET offset` with both cast
`as i64` — SQLite treats a negative offset as 0 and a negative limit as no
limit. -/
def fetch_latest_summaries (st : Store) (count page : Nat) : Option (List Summary) :=
  match checkedSub page 1 with
  | none => none
  | some pm1 =>
    match checkedMul count pm1 with
    | none => none
    | some offset =>
      let rows := (summariesDesc st).drop (toI64 offset).toNat
      some (if toI64 count < 0 then rows else rows.take (toI64 count).toNat)

/-! ## Support lemmas about the text utilities -/

/-- A pattern is a Boolean prefix of itself followed by anything. -/
lemma isPrefixOfAppendSelf (p t : List Char) : p.isPrefixOf (p ++ t) = true := by
  induction p with
  | nil => simp [List.isPrefixOf]
  | cons c cs ih => simp [List.isPrefixOf, ih]

/-- A nonempty pattern is no Boolean prefix of a string starting with another
character. -/
lemma isPrefixOfConsNe {p0 c : Char} (ps t : List Char) (h : c ≠ p0) :
    (p0 :: ps).isPrefixOf (c :: t) = false := by
  simp [List.isPrefixOf]
  intro hc
  exact absurd hc.symm h

lemma breakOnSub_cons_of_ne {p0 c : Char} (ps t : List Char) (h : c ≠ p0) :
    breakOnSub (p0 :: ps) (c :: t)
      = (breakOnSub (p0 :: ps) t).map (fun q => (c :: q.1, q.2)) := by
  rw [breakOnSub]
  rw [isPrefixOfConsNe ps t h]
  cases breakOnSub (p0 :: ps) t with
  | none => simp
  | some q => cases q with | mk a b => simp

/-- Scanning for a pattern skips over a region free of the pattern's first
character. -/
lemma breakOnSub_append_left {p0 : Char} (ps a u : List Char)
    (ha : ∀ x ∈ a, x ≠ p0) :
    breakOnSub (p0 :: ps) (a ++ u)
      = (breakOnSub (p0 :: ps) u).map (fun q => (a ++ q.1, q.2)) := by
  induction a with
  | nil =>
    simp only [List.nil_append]
    cases breakOnSub (p0 :: ps) u with
    | none => simp
    | some q => cases q with | mk x y => simp
  | cons c rest ih =>
    have hc : c ≠ p0 := ha c (List.mem_cons_self c rest)
    rw [List.cons_append, breakOnSub_cons_of_ne ps (rest ++ u) hc]
    rw [ih (fun x hx => ha x (List.mem_cons_of_mem c hx))]
    cases breakOnSub (p0 :: ps) u with
    | none => simp
    | some q => cases q with | mk x y => simp

/-- No occurrence at all in a string free of the pattern's first character. -/
lemma breakOnSub_eq_none {p0 : Char} (ps u : List Char) (hu : ∀ x ∈ u, x ≠ p0) :
    breakOnSub (p0 :: ps) u = none := by
  have h := breakOnSub_append_left ps u [] hu
  simpa [breakOnSub] using h

/-- The scan finds the pattern sitting at the front. -/
lemma breakOnSub_self (p0 : Char) (ps u : List Char) :
    breakOnSub (p0 :: ps) ((p0 :: ps) ++ u) = some ([], u) := by
  rw [List.cons_append, breakOnSub]
  rw [show (ps ++ u : List Char) = ps ++ u from rfl]
  have h : (p0 :: ps).isPrefixOf (p0 :: (ps ++ u)) = true := isPrefixOfAppendSelf (p0 :: ps) u
  rw [h]
  simp [List.drop_left]

/-- On a line of shape `before ++ "content: " ++ body` whose other parts are
free of the character `c`, the `split(..).nth(1)` extraction returns exactly
`body`. -/
lemma secondPiece_marker (pre body : List Char)
    (hpre : ∀ x ∈ pre, x ≠ 'c') (hbody : ∀ x ∈ body, x ≠ 'c') :
    secondPiece "content: ".data (pre ++ "content: ".data ++ body) = some body := by
  have hm : "content: ".data = 'c' :: "ontent: ".data := rfl
  rw [secondPiece, List.append_assoc, hm, breakOnSub_append_left _ pre _ hpre,
    breakOnSub_self]
  simp [breakOnSub_eq_none _ body hbody]

lemma splitChar_cons_of_ne {d c : Char} (t : List Char) (h : c ≠ d) :
    splitChar d (c :: t)
      = (match splitChar d t with
         | [] => [[c]]
         | p :: ps => (c :: p) :: ps) := by
  rw [splitChar, if_neg h]

/-- A split never returns the empty list of pieces. -/
lemma splitChar_ne_nil (d : Char) (s : List Char) : splitChar d s ≠ [] := by
  induction s with
  | nil => simp [splitChar]
  | cons c t ih =>
    rw [splitChar]
    by_cases h : c = d
    · simp [h]
    · simp only [if_neg h]
      cases splitChar d t with
      | nil => simp
      | cons p ps => simp

/-- Splitting skips over a separator-free region up to the first separator. -/
lemma splitChar_append (d : Char) (a t : List Char) (ha : ∀ x ∈ a, x ≠ d) :
    splitChar d (a ++ d :: t) = a :: splitChar d t := by
  induction a with
  | nil => simp [splitChar]
  | cons c rest ih =>
    have hc : c ≠ d := ha c (List.mem_cons_self c rest)
    rw [List.cons_append, splitChar_cons_of_ne _ hc,
      ih (fun x hx => ha x (List.mem_cons_of_mem c hx))]

/-- A separator-free string is one piece. -/
lemma splitChar_of_ne (d : Char) (a : List Char) (ha : ∀ x ∈ a, x ≠ d) :
    splitChar d a = [a] := by
  induction a with
  | nil => rfl
  | cons c rest ih =>
    have hc : c ≠ d := ha c (List.mem_cons_self c rest)
    rw [splitChar_cons_of_ne _ hc, ih (fun x hx => ha x (List.mem_cons_of_mem c hx))]

/-- Splitting the concatenation of newline-terminated newline-free lines
produces those lines plus the empty piece after the final newline. -/
lemma splitChar_concatLines (msgs : List Msg)
    (h : ∀ m ∈ msgs, ∀ x ∈ formatLine m, x ≠ '\n') :
    splitChar '\n' (concatLines msgs) = msgs.map formatLine ++ [[]] := by
  induction msgs with
  | nil => rfl
  | cons m rest ih =>
    rw [concatLines, splitChar_append '\n' _ _ (h m (List.mem_cons_self m rest)),
      ih (fun m2 hm2 => h m2 (List.mem_cons_of_mem m hm2))]
    rfl

/-- The line iterator on such contents returns exactly the written lines. -/
lemma linesOf_concatLines (msgs : List Msg)
    (h : ∀ m ∈ msgs, ∀ x ∈ formatLine m, x ≠ '\n') :
    linesOf (concatLines msgs) = msgs.map formatLine := by
  rw [linesOf, splitChar_concatLines msgs h]
  simp [List.getLast?_concat, List.dropLast_concat]

lemma dropWhileEqSelf (p : Char → Bool) (l : List Char) (h : ∀ x ∈ l, p x = false) :
    l.dropWhile p = l := by
  cases l with
  | nil => rfl
  | cons c t => simp [List.dropWhile, h c (List.mem_cons_self c t)]

/-- Trimming text with no whitespace anywhere is the identity. -/
lemma trimChars_eq_self (s : List Char) (h : ∀ x ∈ s, x.isWhitespace = false) :
    trimChars s = s := by
  rw [trimChars, dropWhileEqSelf _ s h,
    dropWhileEqSelf _ s.reverse (fun x hx => h x (List.mem_reverse.mp hx)),
    List.reverse_reverse]

/-- Character count of the space-joined pieces. -/
lemma joinSpace_length (cs : List (List Char)) :
    (joinSpace cs).length = (cs.map List.length).sum + (cs.length - 1) := by
  induction cs with
  | nil => rfl
  | cons x rest ih =>
    cases rest with
    | nil => simp [joinSpace]
    | cons y t =>
      rw [joinSpace]
      simp only [List.length_append, List.length_cons, ih, List.map_cons, List.sum_cons,
        List.length_cons]
      omega

/-- Cleanliness of a character for the replay analysis: not the marker's first
character and not whitespace. -/
def cleanChar (x : Char) : Bool := x != 'c' && !x.isWhitespace

/-- A message whose three fields consist only of clean characters. -/
def cleanMsg (m : Msg) : Bool :=
  m.timestamp.all cleanChar && m.author.all cleanChar && m.content.all cleanChar

lemma cleanChar_spec {x : Char} (h : cleanChar x = true) :
    x ≠ 'c' ∧ x.isWhitespace = false := by
  simpa [cleanChar, bne_iff_ne] using h

lemma cleanMsg_fields {m : Msg} (h : cleanMsg m = true) :
    (∀ x ∈ m.timestamp, cleanChar x = true) ∧ (∀ x ∈ m.author, cleanChar x = true)
      ∧ (∀ x ∈ m.content, cleanChar x = true) := by
  have h2 := h
  simp only [cleanMsg, Bool.and_eq_true, List.all_eq_true] at h2
  exact ⟨h2.1.1, h2.1.2, h2.2⟩

/-- The literal pieces of a formatted line contain neither the marker's
first character nor a newline. -/
lemma litPiecesClean :
    (∀ x ∈ ("timestamp: ").data, x ≠ 'c' ∧ x ≠ '\n')
      ∧ (∀ x ∈ (", author: ").data, x ≠ 'c' ∧ x ≠ '\n')
      ∧ (∀ x ∈ (", ").data, x ≠ 'c' ∧ x ≠ '\n')
      ∧ (∀ x ∈ (", content: ").data, x ≠ '\n') := by decide

/-- On a clean message, the estimator's per-line extraction recovers exactly
the message's content. -/
lemma extractContent_formatLine (m : Msg) (h : cleanMsg m = true) :
    extractContent (formatLine m) = some m.content := by
  obtain ⟨hts, hau, hc⟩ := cleanMsg_fields h
  have hsplit : formatLine m
      = ("timestamp: ".data ++ m.timestamp ++ ", author: ".data ++ m.author
          ++ ", ".data) ++ "content: ".data ++ m.content := by
    rw [formatLine]
    have hlit : (", content: ").data = ", ".data ++ "content: ".data := rfl
    rw [hlit]
    simp [List.append_assoc]
  rw [extractContent, hsplit]
  apply secondPiece_marker
  · simp only [List.forall_mem_append]
    exact ⟨⟨⟨⟨fun x hx => (litPiecesClean.1 x hx).1,
      fun x hx => (cleanChar_spec (hts x hx)).1⟩,
      fun x hx => (litPiecesClean.2.1 x hx).1⟩,
      fun x hx => (cleanChar_spec (hau x hx)).1⟩,
      fun x hx => (litPiecesClean.2.2.1 x hx).1⟩
  · exact fun x hx => (cleanChar_spec (hc x hx)).1

/-- On clean messages, a formatted line contains no newline. -/
lemma formatLine_no_newline (m : Msg) (h : cleanMsg m = true) :
    ∀ x ∈ formatLine m, x ≠ '\n' := by
  obtain ⟨hts, hau, hc⟩ := cleanMsg_fields h
  have ws : ∀ {y : Char}, cleanChar y = true → y ≠ '\n' := by
    intro y hy hn
    have h2 := (cleanChar_spec hy).2
    rw [hn] at h2
    exact absurd h2 (by decide)
  rw [formatLine]
  simp only [List.forall_mem_append]
  exact ⟨⟨⟨⟨⟨fun x hx => (litPiecesClean.1 x hx).2,
    fun x hx => ws (hts x hx)⟩,
    fun x hx => (litPiecesClean.2.1 x hx).2⟩,
    fun x hx => ws (hau x hx)⟩,
    fun x hx => litPiecesClean.2.2.2 x hx⟩,
    fun x hx => ws (hc x hx)⟩

/-- The filter-map of the estimator over cleanly formatted lines yields the
message contents themselves. -/
lemma filterMap_extract (msgs : List Msg) (h : ∀ m ∈ msgs, cleanMsg m = true) :
    (msgs.map formatLine).filterMap (fun line => (extractContent line).map trimChars)
      = msgs.map (fun m => m.content) := by
  induction msgs with
  | nil => rfl
  | cons m rest ih =>
    have hm := h m (List.mem_cons_self m rest)
    obtain ⟨-, -, hc⟩ := cleanMsg_fields hm
    rw [List.map_cons, List.filterMap_cons, extractContent_formatLine m hm]
    simp only [Option.map_some']
    rw [trimChars_eq_self m.content (fun x hx => (cleanChar_spec (hc x hx)).2),
      ih (fun m2 hm2 => h m2 (List.mem_cons_of_mem m hm2)), List.map_cons]

/-- The replayed token count of a cleanly produced segment file in closed
form: total content characters plus one separator per gap, floored once. -/
lemma estimate_concatLines (msgs : List Msg) (h : ∀ m ∈ msgs, cleanMsg m = true) :
    estimate_token_count (concatLines msgs)
      = ((msgs.map (fun m => m.content.length)).sum + (msgs.length - 1))
          / CHARS_PER_TOKEN := by
  rw [estimate_token_count,
    linesOf_concatLines msgs (fun m hm => formatLine_no_newline m (h m hm)),
    filterMap_extract msgs h, joinSpace_length]
  simp only [List.map_map, List.length_map, Function.comp_def]

/-- Floor division distributes sub-additively over a sum. -/
lemma div_add_div_le (a b k : Nat) : a / k + b / k ≤ (a + b) / k := by
  rcases Nat.eq_zero_or_pos k with hk | hk
  · simp [hk]
  · rw [Nat.le_div_iff_mul_le hk, Nat.add_mul]
    exact Nat.add_le_add (Nat.div_mul_le_self a k) (Nat.div_mul_le_self b k)

/-- Summing per-item floors never exceeds flooring the total. -/
lemma sum_map_div_le (l : List Nat) (k : Nat) :
    (l.map (fun x => x / k)).sum ≤ l.sum / k := by
  induction l with
  | nil => simp
  | cons a t ih =>
    simp only [List.map_cons, List.sum_cons]
    calc a / k + (t.map (fun x => x / k)).sum ≤ a / k + t.sum / k :=
          Nat.add_le_add_left ih _
      _ ≤ (a + t.sum) / k := div_add_div_le a t.sum k

/-- A batcher run whose total incoming token count fits under the threshold
never rotates: it appends every line to the active segment and accumulates
the per-message counts. -/
lemma foldlM_ingest_ok (threshold : Nat) (msgs : List Msg) : ∀ st : BatcherState,
    st.currFileTokenCount
        + (msgs.map (fun m => m.content.length / CHARS_PER_TOKEN)).sum ≤ threshold →
    List.foldlM (ingest threshold okEnv) st msgs
      = some { st with
          activeFile := st.activeFile ++ concatLines msgs
          currFileTokenCount := st.currFileTokenCount
            + (msgs.map (fun m => m.content.length / CHARS_PER_TOKEN)).sum } := by
  induction msgs with
  | nil =>
    intro st hfit
    simp [concatLines]
  | cons m rest ih =>
    intro st hfit
    simp only [List.map_cons, List.sum_cons] at hfit
    have hstep : ingest threshold okEnv st m
        = some (appendMessage st m (m.content.length / CHARS_PER_TOKEN)) := by
      rw [ingest]
      have hno : ¬ (st.currFileTokenCount + m.content.length / CHARS_PER_TOKEN
          > threshold) := by omega
      simp [okEnv, hno]
    rw [List.foldlM_cons, hstep]
    simp only [Option.bind_eq_bind, Option.some_bind]
    rw [ih (appendMessage st m (m.content.length / CHARS_PER_TOKEN))
      (by simp [appendMessage]; omega)]
    simp [appendMessage, concatLines, List.append_assoc]
    omega

/-- The concrete ingestion run of the C3 counterexample: two messages whose
contents have 3 characters each. -/
def c3msgs : List Msg :=
  [⟨"t".data, "a".data, "abc".data⟩, ⟨"t".data, "a".data, "abc".data⟩]

/-- C3 counterexample: ingesting two 3-character messages accumulates a
running count of 0 (`3/4 + 3/4`), but replaying the produced segment file
through the Token Estimator yields 1 (`(3+1+3)/4`): the two values differ, so
the claimed equality fails at this input. -/
theorem replay_vs_incremental_counterexample :
    (runIngest 1000 c3msgs).map
        (fun st => (estimate_token_count st.activeFile, st.currFileTokenCount))
      = some (1, 0)
    ∧ ((1 : Nat) = 0 → False) := by
  exact ⟨by decide, by decide⟩

/-- C3 (amended): for clean messages (fields free of the marker's first
character and of whitespace) whose total token count fits under the
threshold, the run never rotates, the incremental running count is the sum of
the per-message floors, and the replayed count of the produced file is the
floor of the total joined length — the sum of content lengths plus one
separator per gap.  The incremental count never exceeds the replayed count;
the two agree only in special cases. -/
theorem replay_vs_incremental (threshold : Nat) (msgs : List Msg)
    (hclean : ∀ m ∈ msgs, cleanMsg m = true)
    (hfit : (msgs.map (fun m => m.content.length / CHARS_PER_TOKEN)).sum ≤ threshold) :
    runIngest threshold msgs
      = some { logFileIndex := 0
               currFileTokenCount :=
                 (msgs.map (fun m => m.content.length / CHARS_PER_TOKEN)).sum
               activeFile := concatLines msgs
               closedFiles := []
               requests := [] }
    ∧ estimate_token_count (concatLines msgs)
        = ((msgs.map (fun m => m.content.length)).sum + (msgs.length - 1))
            / CHARS_PER_TOKEN
    ∧ (msgs.map (fun m => m.content.length / CHARS_PER_TOKEN)).sum
        ≤ estimate_token_count (concatLines msgs) := by
  refine ⟨?_, estimate_concatLines msgs hclean, ?_⟩
  · rw [runIngest, foldlM_ingest_ok threshold msgs initState (by simpa [initState] using hfit)]
    simp [initState]
  · rw [estimate_concatLines msgs hclean]
    have h1 : (msgs.map (fun m => m.content.length / CHARS_PER_TOKEN)).sum
        ≤ (msgs.map (fun m => m.content.length)).sum / CHARS_PER_TOKEN := by
      have h2 := sum_map_div_le (msgs.map (fun m => m.content.length)) CHARS_PER_TOKEN
      rwa [List.map_map, Function.comp_def] at h2
    exact le_trans h1 (Nat.div_le_div_right (Nat.le_add_right _ _))

/-- The clean messages of the C3 witness run. -/
def c3wmsgs : List Msg :=
  [⟨"2024".data, "bob".data, "hello".data⟩, ⟨"2024".data, "bob".data, "world".data⟩]

/-- Witness for the amended C3 at a concrete clean run under threshold 100. -/
theorem replay_vs_incremental_witness :
    runIngest 100 c3wmsgs
      = some { logFileIndex := 0
               currFileTokenCount :=
                 (c3wmsgs.map (fun m => m.content.length / CHARS_PER_TOKEN)).sum
               activeFile := concatLines c3wmsgs
               closedFiles := []
               requests := [] }
    ∧ estimate_token_count (concatLines c3wmsgs)
        = ((c3wmsgs.map (fun m => m.content.length)).sum + (c3wmsgs.length - 1))
            / CHARS_PER_TOKEN
    ∧ (c3wmsgs.map (fun m => m.content.length / CHARS_PER_TOKEN)).sum
        ≤ estimate_token_count (concatLines c3wmsgs) :=
  replay_vs_incremental 100 c3wmsgs (by decide) (by decide)

/-- C2: with the step's file and channel operations succeeding, the batcher
rotates exactly when `runningCount + tokens(content) > threshold` with
`tokens = chars / 4`: on rotation the enqueued request names the index active
before the triggering event was appended, the count is reset and then accrues
only the triggering message, and the triggering line lands alone in the new
segment; otherwise the line is appended to the current segment and the count
accrues. -/
theorem rotation_spec (threshold : Nat) (env : BatcherEnv) (st : BatcherState) (m : Msg)
    (ho : env.openOk = true) (hs : env.sendOk = true) (hw : env.writeOk = true) :
    (st.currFileTokenCount + m.content.length / CHARS_PER_TOKEN > threshold →
      ingest threshold env st m = some
        { logFileIndex := st.logFileIndex + 1
          currFileTokenCount := m.content.length / CHARS_PER_TOKEN
          activeFile := formatLine m ++ ['\n']
          closedFiles := st.closedFiles ++ [(st.logFileIndex, st.activeFile)]
          requests := st.requests ++ [st.logFileIndex] })
    ∧ (st.currFileTokenCount + m.content.length / CHARS_PER_TOKEN ≤ threshold →
      ingest threshold env st m = some
        { logFileIndex := st.logFileIndex
          currFileTokenCount := st.currFileTokenCount + m.content.length / CHARS_PER_TOKEN
          activeFile := st.activeFile ++ formatLine m ++ ['\n']
          closedFiles := st.closedFiles
          requests := st.requests }) := by
  constructor
  · intro hgt
    rw [ingest]
    simp [ho, hs, hw, hgt, appendMessage, rotatedState]
  · intro hle
    rw [ingest]
    have hno : ¬ (st.currFileTokenCount + m.content.length / CHARS_PER_TOKEN > threshold) := by
      omega
    simp [hno, hw, appendMessage]

/-- The concrete scenario of the spec: message A with 240 characters, message
B with 200 characters, threshold 100 tokens. -/
def msgA : Msg := ⟨"t".data, "a".data, List.replicate 240 'x'⟩

/-- The second message of the concrete scenario. -/
def msgB : Msg := ⟨"t".data, "a".data, List.replicate 200 'y'⟩

set_option maxRecDepth 4000 in
/-- Witness for C2 at the spec's scenario: after A the count is 60; ingesting
B (50 tokens) overflows 100, so segment 0 closes with request 0 emitted and B
lands alone in segment 1 with count 50. -/
theorem rotation_spec_witness :
    ingest 100 okEnv
      { logFileIndex := 0
        currFileTokenCount := 60
        activeFile := formatLine msgA ++ ['\n']
        closedFiles := []
        requests := [] } msgB
    = some
      { logFileIndex := 1
        currFileTokenCount := msgB.content.length / CHARS_PER_TOKEN
        activeFile := formatLine msgB ++ ['\n']
        closedFiles := [(0, formatLine msgA ++ ['\n'])]
        requests := [0] } :=
  (rotation_spec 100 okEnv _ msgB rfl rfl rfl).1 (by decide)

/-! ## Summarizer step characterization -/

lemma summarizerStep_read_fail (env : SummEnv) (fs : List (Nat × List Char))
    (ss : List Summary) (i : Nat)
    (h : (if env.readOk then List.lookup i fs else none) = none) :
    summarizerStep env fs ss i = (fs, ss, [SummEffect.fsRead]) := by
  rw [summarizerStep, h]

lemma summarizerStep_oracle_fail (env : SummEnv) (fs : List (Nat × List Char))
    (ss : List Summary) (i : Nat) (c : List Char)
    (h : (if env.readOk then List.lookup i fs else none) = some c)
    (ho : env.oracle c = Except.error ()) :
    summarizerStep env fs ss i = (fs, ss, [SummEffect.fsRead, SummEffect.oracleCall]) := by
  rw [summarizerStep, h]
  simp [ho]

lemma summarizerStep_insert_fail (env : SummEnv) (fs : List (Nat × List Char))
    (ss : List Summary) (i : Nat) (c t : List Char)
    (h : (if env.readOk then List.lookup i fs else none) = some c)
    (ho : env.oracle c = Except.ok t) (hi : env.insertOk = false) :
    summarizerStep env fs ss i
      = (fs, ss, [SummEffect.fsRead, SummEffect.oracleCall, SummEffect.dbInsert]) := by
  rw [summarizerStep, h]
  simp [ho, hi]

lemma summarizerStep_success (env : SummEnv) (fs : List (Nat × List Char))
    (ss : List Summary) (i : Nat) (c t : List Char)
    (h : (if env.readOk then List.lookup i fs else none) = some c)
    (ho : env.oracle c = Except.ok t) (hi : env.insertOk = true) :
    summarizerStep env fs ss i
      = (if env.deleteOk then fs.filter (fun p => p.1 != i) else fs,
         insert_summary ss t env.newId env.now,
         [SummEffect.fsRead, SummEffect.oracleCall, SummEffect.dbInsert,
          SummEffect.fsDelete]) := by
  rw [summarizerStep, h]
  simp [ho, hi]

lemma append_singleton_ne (x : Summary) (l : List Summary) : l ++ [x] ≠ l := by
  intro h
  have h2 := congrArg List.length h
  simp at h2

/-- C1 (amended): handling a summarize request for segment `i` deletes the
file only if a Summary row for the oracle-returned text was persisted, and
the deletion is attempted exactly when the insert succeeded — so after a
failed read, failed oracle call or failed insert the file and the store are
untouched; when the deletion itself fails the persisted Summary coexists with
the surviving (orphaned) file. -/
theorem segment_lifecycle (env : SummEnv) (fs : List (Nat × List Char))
    (ss : List Summary) (i : Nat) :
    ((env.readOk = false ∨ List.lookup i fs = none) →
      summarizerStep env fs ss i = (fs, ss, [SummEffect.fsRead]))
    ∧ (∀ c, List.lookup i fs = some c → env.oracle c = Except.error () →
      (summarizerStep env fs ss i).1 = fs ∧ (summarizerStep env fs ss i).2.1 = ss)
    ∧ (env.insertOk = false →
      (summarizerStep env fs ss i).1 = fs ∧ (summarizerStep env fs ss i).2.1 = ss)
    ∧ (SummEffect.fsDelete ∈ (summarizerStep env fs ss i).2.2 ↔
      env.readOk = true ∧ ∃ c t, List.lookup i fs = some c
        ∧ env.oracle c = Except.ok t ∧ env.insertOk = true)
    ∧ ((summarizerStep env fs ss i).2.1 ≠ ss ↔
      SummEffect.fsDelete ∈ (summarizerStep env fs ss i).2.2)
    ∧ ((List.lookup i (summarizerStep env fs ss i).1 = none ∧ List.lookup i fs ≠ none) →
      (summarizerStep env fs ss i).2.1 ≠ ss) := by
  rcases hscr : (if env.readOk then List.lookup i fs else none) with _ | c
  · have hstep := summarizerStep_read_fail env fs ss i hscr
    rw [hstep]
    refine ⟨fun _ => rfl, fun c _ _ => ⟨rfl, rfl⟩, fun _ => ⟨rfl, rfl⟩, ?_, ?_, ?_⟩
    · constructor
      · intro hmem
        simp at hmem
      · rintro ⟨hread, c, t, hl, -, -⟩
        rw [if_pos hread, hl] at hscr
        exact Option.noConfusion hscr
    · constructor
      · intro hne
        exact absurd rfl hne
      · intro hmem
        simp at hmem
    · rintro ⟨h1, h2⟩
      exact absurd h1 h2
  · have hread : env.readOk = true := by
      by_contra hrn
      rw [if_neg hrn] at hscr
      exact Option.noConfusion hscr
    have hlook : List.lookup i fs = some c := by rwa [if_pos hread] at hscr
    rcases ho : env.oracle c with e | t
    · cases e
      have hstep := summarizerStep_oracle_fail env fs ss i c hscr ho
      rw [hstep]
      refine ⟨?_, fun c2 _ _ => ⟨rfl, rfl⟩, fun _ => ⟨rfl, rfl⟩, ?_, ?_, ?_⟩
      · rintro (hr | hl)
        · rw [hread] at hr
          exact Bool.noConfusion hr
        · rw [hlook] at hl
          exact Option.noConfusion hl
      · constructor
        · intro hmem
          simp at hmem
        · rintro ⟨-, c2, t, hl2, ho2, -⟩
          rw [hlook] at hl2
          cases hl2
          rw [ho] at ho2
          exact Except.noConfusion ho2
      · constructor
        · intro hne
          exact absurd rfl hne
        · intro hmem
          simp at hmem
      · rintro ⟨h1, h2⟩
        exact absurd hlook (by simp [h1])
    · by_cases hi : env.insertOk = true
      · have hstep := summarizerStep_success env fs ss i c t hscr ho hi
        rw [hstep]
        have hne := append_singleton_ne
          { id := env.newId, daily_digest_id := none, text := t, timestamp := env.now } ss
        refine ⟨?_, ?_, ?_, ?_, ?_, ?_⟩
        · rintro (hr | hl)
          · rw [hread] at hr
            exact Bool.noConfusion hr
          · rw [hlook] at hl
            exact Option.noConfusion hl
        · intro c2 hl2 ho2
          rw [hlook] at hl2
          cases hl2
          rw [ho] at ho2
          exact Except.noConfusion ho2
        · intro hi2
          rw [hi2] at hi
          exact Bool.noConfusion hi
        · constructor
          · intro _
            exact ⟨hread, c, t, hlook, ho, hi⟩
          · intro _
            simp
        · constructor
          · intro _
            simp
          · intro _
            simp [insert_summary]
        · intro _
          simp [insert_summary]
      · have hifalse : env.insertOk = false := by
          cases henv : env.insertOk
          · rfl
          · exact absurd henv hi
        have hstep := summarizerStep_insert_fail env fs ss i c t hscr ho hifalse
        rw [hstep]
        refine ⟨?_, fun c2 _ _ => ⟨rfl, rfl⟩, fun _ => ⟨rfl, rfl⟩, ?_, ?_, ?_⟩
        · rintro (hr | hl)
          · rw [hread] at hr
            exact Bool.noConfusion hr
          · rw [hlook] at hl
            exact Option.noConfusion hl
        · constructor
          · intro hmem
            simp at hmem
          · rintro ⟨-, -, -, -, -, hi2⟩
            exact absurd hi2 hi
        · constructor
          · intro hne
            exact absurd rfl hne
          · intro hmem
            simp at hmem
        · rintro ⟨h1, h2⟩
          exact absurd hlook (by simp [h1])

/-- The environment of the C1 counterexample: everything succeeds except the
final file deletion. -/
def c1env : SummEnv := ⟨true, fun _ => Except.ok "sum".data, true, 7, 50, false⟩

/-- The segment directory of the C1 counterexample: segment 3 exists. -/
def c1fs : List (Nat × List Char) := [(3, "hello".data)]

/-- C1 counterexample: when the deletion itself fails, the Summary row for
the oracle text is durably persisted yet segment file 3 still exists — so
"deleted if and only if persisted", read literally, fails at this input. -/
theorem segment_lifecycle_counterexample :
    (summarizerStep c1env c1fs [] 3).2.1 = [⟨7, none, "sum".data, 50⟩]
    ∧ List.lookup 3 (summarizerStep c1env c1fs [] 3).1 = some "hello".data
    ∧ (summarizerStep c1env c1fs [] 3).2.1 ≠ []
    ∧ ¬ (List.lookup 3 (summarizerStep c1env c1fs [] 3).1 = none) := by
  exact ⟨by decide, by decide, by decide, by decide⟩

/-! ## Recap tick characterization -/

/-- The combined effect of the link-update loop on the summaries table: every
row whose id is among the requested ids points at the new digest. -/
def linkAll (did : Nat) (ids : List Nat) (ss : List Summary) : List Summary :=
  ss.map (fun s => if s.id ∈ ids then { s with daily_digest_id := some did } else s)

lemma linkAll_nil (did : Nat) (ss : List Summary) : linkAll did [] ss = ss := by
  simp [linkAll]

lemma linkAll_setLink (did sid : Nat) (ids : List Nat) (ss : List Summary) :
    linkAll did ids (setLink did sid ss) = linkAll did (sid :: ids) ss := by
  rw [linkAll, linkAll, setLink, List.map_map]
  apply List.map_congr_left
  intro s _
  by_cases h1 : s.id = sid
  · by_cases h2 : s.id ∈ ids <;> simp [Function.comp, h1, h2]
  · by_cases h2 : s.id ∈ ids <;> simp [Function.comp, h1, h2, List.mem_cons]

/-- A successful run of the link-update loop links exactly the given ids and
touches nothing else. -/
lemma runUpdates_ok (tx : TxEnv) (did : Nat) : ∀ (ids : List Nat) (w w2 : Store),
    runUpdates tx did ids w = Except.ok w2 →
    w2.summaries = linkAll did ids w.summaries ∧ w2.digests = w.digests := by
  intro ids
  induction ids with
  | nil =>
    intro w w2 h
    rw [runUpdates] at h
    cases h
    exact ⟨(linkAll_nil did _).symm, rfl⟩
  | cons sid rest ih =>
    intro w w2 h
    rw [runUpdates] at h
    by_cases hu : tx.updateOk sid
    · rw [if_pos hu] at h
      have h2 := ih _ _ h
      refine ⟨?_, h2.2⟩
      rw [h2.1]
      exact linkAll_setLink did sid rest w.summaries
    · rw [if_neg hu] at h
      exact Except.noConfusion h

/-- A committed `insert_daily_digest` appends exactly the one digest row and
links exactly the given summary ids. -/
lemma insert_daily_digest_ok (tx : TxEnv) (st : Store) (digestText : List Char)
    (summaryIds : List Nat) (st2 : Store)
    (h : insert_daily_digest tx st digestText summaryIds = Except.ok st2) :
    st2.digests = st.digests
        ++ [{ id := tx.newDigestId, text := digestText, timestamp := tx.now }]
    ∧ st2.summaries = linkAll tx.newDigestId summaryIds st.summaries := by
  rw [insert_daily_digest] at h
  by_cases hd : tx.digestInsertOk
  · rw [if_pos hd] at h
    rcases hr : runUpdates tx tx.newDigestId summaryIds
        { st with digests := st.digests
            ++ [{ id := tx.newDigestId, text := digestText, timestamp := tx.now }] } with e | w
    · rw [hr] at h
      exact Except.noConfusion h
    · rw [hr] at h
      replace h : (if tx.commitOk = true then Except.ok w
          else (Except.error () : Except Unit Store)) = Except.ok st2 := h
      by_cases hc : tx.commitOk = true
      · rw [if_pos hc] at h
        cases h
        have h2 := runUpdates_ok tx tx.newDigestId summaryIds _ _ hr
        exact ⟨h2.2, h2.1⟩
      · rw [if_neg hc] at h
        exact Except.noConfusion h
  · rw [if_neg hd] at h
    exact Except.noConfusion h

/-- Membership in the eligibility query result: a summary is selected exactly
when it is in the table and its timestamp is at or after the watermark (all
rows when there is no watermark). -/
lemma mem_recapEligible (st : Store) (s : Summary) :
    s ∈ recapEligible st ↔
      s ∈ st.summaries ∧ ∀ t0, lastRecap st = some t0 → t0 ≤ s.timestamp := by
  rw [recapEligible]
  rcases hw : lastRecap st with _ | t0
  · simp
  · rw [(List.perm_insertionSort _ _).mem_iff, List.mem_filter]
    simp [decide_eq_true_iff]

lemma recapTick_noop (env : RecapEnv) (st : Store)
    (h1 : env.fetchLastOk = true) (h2 : env.fetchSummariesOk = true)
    (he : recapEligible st = []) :
    recapTick env st = some (st, RecapOutcome.noSummaries, []) := by
  rw [recapTick, if_pos h1, if_pos h2]
  simp [he]

lemma recapTick_oracle_fail (env : RecapEnv) (st : Store)
    (h1 : env.fetchLastOk = true) (h2 : env.fetchSummariesOk = true)
    (he : recapEligible st ≠ [])
    (ho : env.oracle (digestInput st) = Except.error ()) :
    recapTick env st
      = some (st, RecapOutcome.oracleFailed, [RecapEffect.oracleCall]) := by
  rw [recapTick, if_pos h1, if_pos h2]
  rw [if_neg (by simpa [List.isEmpty_iff] using he)]
  simp [ho]

lemma recapTick_tx_fail (env : RecapEnv) (st : Store) (dtext : List Char)
    (h1 : env.fetchLastOk = true) (h2 : env.fetchSummariesOk = true)
    (he : recapEligible st ≠ [])
    (ho : env.oracle (digestInput st) = Except.ok dtext)
    (hins : insert_daily_digest env.tx st dtext (eligibleIds st) = Except.error ()) :
    recapTick env st = some (st, RecapOutcome.txFailed,
      [RecapEffect.oracleCall, RecapEffect.storeWrite]) := by
  rw [recapTick, if_pos h1, if_pos h2]
  rw [if_neg (by simpa [List.isEmpty_iff] using he)]
  simp [ho, hins]

lemma recapTick_commit (env : RecapEnv) (st st2 : Store) (dtext : List Char)
    (h1 : env.fetchLastOk = true) (h2 : env.fetchSummariesOk = true)
    (he : recapEligible st ≠ [])
    (ho : env.oracle (digestInput st) = Except.ok dtext)
    (hins : insert_daily_digest env.tx st dtext (eligibleIds st) = Except.ok st2) :
    recapTick env st = some (st2, RecapOutcome.committed,
      [RecapEffect.oracleCall, RecapEffect.storeWrite]) := by
  rw [recapTick, if_pos h1, if_pos h2]
  rw [if_neg (by simpa [List.isEmpty_iff] using he)]
  simp [ho, hins]

/-- Case characterization of one recap tick with both queries succeeding. -/
lemma recapTick_char (env : RecapEnv) (st : Store)
    (h1 : env.fetchLastOk = true) (h2 : env.fetchSummariesOk = true) :
    (recapEligible st = [] ∧ recapTick env st = some (st, RecapOutcome.noSummaries, []))
    ∨ (recapEligible st ≠ [] ∧ env.oracle (digestInput st) = Except.error ()
        ∧ recapTick env st
            = some (st, RecapOutcome.oracleFailed, [RecapEffect.oracleCall]))
    ∨ (∃ dtext, recapEligible st ≠ [] ∧ env.oracle (digestInput st) = Except.ok dtext
        ∧ ((insert_daily_digest env.tx st dtext (eligibleIds st) = Except.error ()
              ∧ recapTick env st = some (st, RecapOutcome.txFailed,
                  [RecapEffect.oracleCall, RecapEffect.storeWrite]))
            ∨ (∃ st2, insert_daily_digest env.tx st dtext (eligibleIds st)
                  = Except.ok st2
                ∧ recapTick env st = some (st2, RecapOutcome.committed,
                    [RecapEffect.oracleCall, RecapEffect.storeWrite])))) := by
  by_cases he : recapEligible st = []
  · exact Or.inl ⟨he, recapTick_noop env st h1 h2 he⟩
  · rcases ho : env.oracle (digestInput st) with e | dtext
    · cases e
      exact Or.inr (Or.inl ⟨he, rfl, recapTick_oracle_fail env st h1 h2 he ho⟩)
    · refine Or.inr (Or.inr ⟨dtext, he, rfl, ?_⟩)
      rcases hins : insert_daily_digest env.tx st dtext (eligibleIds st) with e | st2
      · cases e
        exact Or.inl ⟨rfl, recapTick_tx_fail env st dtext h1 h2 he ho hins⟩
      · exact Or.inr ⟨st2, rfl, recapTick_commit env st st2 dtext h1 h2 he ho hins⟩

lemma linkAll_map_id (did : Nat) (ids : List Nat) (ss : List Summary) :
    (linkAll did ids ss).map (fun x => x.id) = ss.map (fun x => x.id) := by
  rw [linkAll, List.map_map]
  apply List.map_congr_left
  intro s _
  by_cases h : s.id ∈ ids <;> simp [h]

/-- C6: the eligibility query selects exactly the summaries with timestamp at
or after the most recent digest's timestamp (inclusive), or every summary
when no digest exists; in the spec's concrete scenario — prior digest at 100,
summaries at 99, 100, 101 — exactly the summaries at 100 and 101 are
selected. -/
theorem recap_selection :
    (∀ (st : Store) (s : Summary), s ∈ recapEligible st ↔
      (s ∈ st.summaries ∧ ∀ t0, lastRecap st = some t0 → t0 ≤ s.timestamp))
    ∧ recapEligible
        ⟨[⟨1, none, "x".data, 99⟩, ⟨2, none, "y".data, 100⟩, ⟨3, none, "z".data, 101⟩],
         [⟨0, "d".data, 100⟩]⟩
      = [⟨2, none, "y".data, 100⟩, ⟨3, none, "z".data, 101⟩] :=
  ⟨mem_recapEligible, by decide⟩

/-- C8: a recap tick whose eligibility query returns zero summaries leaves
the store unchanged and attempts no oracle call and no store write. -/
theorem recap_noop (env : RecapEnv) (st : Store)
    (h1 : env.fetchLastOk = true) (h2 : env.fetchSummariesOk = true)
    (h0 : recapEligible st = []) :
    recapTick env st = some (st, RecapOutcome.noSummaries, []) :=
  recapTick_noop env st h1 h2 h0

/-- The store of the C8 witness: one summary strictly before the watermark. -/
def w8store : Store := ⟨[⟨1, none, "s".data, 50⟩], [⟨0, "d".data, 100⟩]⟩

/-- The environment of the C8 witness. -/
def w8env : RecapEnv :=
  ⟨true, true, fun _ => Except.ok "g".data, ⟨true, fun _ => true, true, 5, 200⟩⟩

/-- Witness for C8: with one summary at 50 under a watermark of 100 the tick
is a no-op. -/
theorem recap_noop_witness :
    recapTick w8env w8store = some (w8store, RecapOutcome.noSummaries, []) :=
  recap_noop w8env w8store rfl rfl (by decide)

/-- C5: digest creation is atomic — any tick that does not commit leaves the
store exactly as it was (oracle failure, or any failed statement inside the
transaction, whose rollback discards the digest row and every link-update),
and a committed tick appends exactly one digest row for the oracle text and
links exactly the selected summary ids to it. -/
theorem digest_atomicity (env : RecapEnv) (st : Store)
    (h1 : env.fetchLastOk = true) (h2 : env.fetchSummariesOk = true) :
    (∀ r, recapTick env st = some r → r.2.1 ≠ RecapOutcome.committed → r.1 = st)
    ∧ (∀ r, recapTick env st = some r → r.2.1 = RecapOutcome.committed →
      ∃ dtext, env.oracle (digestInput st) = Except.ok dtext
        ∧ r.1.digests = st.digests
            ++ [{ id := env.tx.newDigestId, text := dtext, timestamp := env.tx.now }]
        ∧ r.1.summaries = linkAll env.tx.newDigestId (eligibleIds st) st.summaries) := by
  have hc := recapTick_char env st h1 h2
  constructor
  · intro r hr hnc
    rcases hc with ⟨-, he⟩ | ⟨-, -, he⟩ | ⟨dtext, -, -, ⟨-, he⟩ | ⟨st2, -, he⟩⟩
    · rw [he] at hr
      cases hr
      rfl
    · rw [he] at hr
      cases hr
      rfl
    · rw [he] at hr
      cases hr
      rfl
    · rw [he] at hr
      cases hr
      exact absurd rfl hnc
  · intro r hr hcm
    rcases hc with ⟨-, he⟩ | ⟨-, -, he⟩ | ⟨dtext, -, ho, ⟨-, he⟩ | ⟨st2, hins, he⟩⟩
    · rw [he] at hr
      cases hr
      exact absurd hcm (by simp)
    · rw [he] at hr
      cases hr
      exact absurd hcm (by simp)
    · rw [he] at hr
      cases hr
      exact absurd hcm (by simp)
    · rw [he] at hr
      cases hr
      have hid := insert_daily_digest_ok env.tx st dtext (eligibleIds st) st2 hins
      exact ⟨dtext, ho, hid.1, hid.2⟩

/-- The environment of the C5 witness: the oracle fails. -/
def w5env : RecapEnv :=
  ⟨true, true, fun _ => Except.error (), ⟨true, fun _ => true, true, 5, 200⟩⟩

/-- The store of the C5 witness: one eligible summary. -/
def w5store : Store := ⟨[⟨1, none, "s".data, 150⟩], [⟨0, "d".data, 100⟩]⟩

/-- Witness for C5: an oracle-failing tick over one eligible summary leaves
the store untouched. -/
theorem digest_atomicity_witness :
    ((w5store, RecapOutcome.oracleFailed, [RecapEffect.oracleCall]) :
        Store × RecapOutcome × List RecapEffect).1 = w5store :=
  (digest_atomicity w5env w5store rfl rfl).1
    (w5store, RecapOutcome.oracleFailed, [RecapEffect.oracleCall]) (by decide) (by decide)

/-- C4 (amended): a summary whose timestamp lies strictly below the current
watermark is never touched by a recap tick — its exact row survives and the
table's ids are unchanged.  (At the inclusive boundary, a summary whose
timestamp equals the watermark is re-selected and its digest-link
overwritten, so "set exactly once" fails there.) -/
theorem summary_link_stability (env : RecapEnv) (st : Store) (s : Summary) (t0 : Int)
    (hids : (st.summaries.map (fun x => x.id)).Nodup)
    (hmem : s ∈ st.summaries) (hlast : lastRecap st = some t0)
    (hts : s.timestamp < t0) :
    ∀ r, recapTick env st = some r →
      s ∈ r.1.summaries
      ∧ r.1.summaries.map (fun x => x.id) = st.summaries.map (fun x => x.id) := by
  intro r hr
  rcases hf1 : env.fetchLastOk with _ | _
  · rw [recapTick, if_neg (by simp [hf1])] at hr
    exact Option.noConfusion hr
  · rcases hf2 : env.fetchSummariesOk with _ | _
    · rw [recapTick, if_pos hf1, if_neg (by simp [hf2])] at hr
      exact Option.noConfusion hr
    · have hc := recapTick_char env st hf1 hf2
      have hnotin : s.id ∉ eligibleIds st := by
        intro hin
        obtain ⟨s2, hs2mem, hs2id⟩ := List.mem_map.mp hin
        have h3 := (mem_recapEligible st s2).mp hs2mem
        have h4 : t0 ≤ s2.timestamp := h3.2 t0 hlast
        have h5 : s2 = s := List.inj_on_of_nodup_map hids h3.1 hmem hs2id
        rw [h5] at h4
        omega
      have hpres : s ∈ linkAll env.tx.newDigestId (eligibleIds st) st.summaries := by
        have heq : (fun x => if x.id ∈ eligibleIds st
            then { x with daily_digest_id := some env.tx.newDigestId } else x) s = s := by
          simp [hnotin]
        rw [linkAll]
        exact heq ▸ List.mem_map_of_mem _ hmem
      rcases hc with ⟨-, he⟩ | ⟨-, -, he⟩ | ⟨dtext, -, -, ⟨-, he⟩ | ⟨st2, hins, he⟩⟩
      · rw [he] at hr
        cases hr
        exact ⟨hmem, rfl⟩
      · rw [he] at hr
        cases hr
        exact ⟨hmem, rfl⟩
      · rw [he] at hr
        cases hr
        exact ⟨hmem, rfl⟩
      · rw [he] at hr
        cases hr
        have hid := insert_daily_digest_ok env.tx st dtext (eligibleIds st) st2 hins
        rw [hid.2]
        exact ⟨hpres, linkAll_map_id _ _ _⟩

/-- The store of the C4 counterexample: one summary already linked to digest
0, with its timestamp equal to that digest's timestamp (the boundary tie). -/
def c4store : Store := ⟨[⟨1, some 0, "s".data, 100⟩], [⟨0, "d".data, 100⟩]⟩

/-- The environment of the C4 counterexample: everything succeeds; the next
digest gets id 1. -/
def c4env : RecapEnv :=
  ⟨true, true, fun _ => Except.ok "g".data, ⟨true, fun _ => true, true, 1, 200⟩⟩

/-- C4 counterexample: the summary's digest-link was already set (to digest
0), yet the next tick — whose inclusive `timestamp >= watermark` query
re-selects the boundary summary and whose link-update is unconditional —
changes it to digest 1: the link is not set exactly once. -/
theorem summary_link_stability_counterexample :
    c4store.summaries.map (fun s => s.daily_digest_id) = [some 0]
    ∧ (recapTick c4env c4store).map
        (fun r => r.1.summaries.map (fun s => s.daily_digest_id)) = some [some 1]
    ∧ ¬ ((some 0 : Option Nat) = some 1) := by
  exact ⟨by decide, by decide, by decide⟩

/-- The store of the C4 witness: a summary at 50 strictly below the
watermark 100, plus an eligible one at 150. -/
def w4store : Store :=
  ⟨[⟨1, some 0, "a".data, 50⟩, ⟨2, none, "b".data, 150⟩], [⟨0, "d".data, 100⟩]⟩

/-- The environment of the C4 witness: a fully committing tick. -/
def w4env : RecapEnv :=
  ⟨true, true, fun _ => Except.ok "g".data, ⟨true, fun _ => true, true, 5, 200⟩⟩

/-- Witness for the amended C4: after the committing tick the summary below
the watermark is untouched while the table's ids are preserved. -/
theorem summary_link_stability_witness :
    (⟨1, some 0, "a".data, 50⟩ : Summary) ∈
      ((⟨[⟨1, some 0, "a".data, 50⟩, ⟨2, some 5, "b".data, 150⟩],
          [⟨0, "d".data, 100⟩, ⟨5, "g".data, 200⟩]⟩ : Store),
        RecapOutcome.committed,
        [RecapEffect.oracleCall, RecapEffect.storeWrite]).1.summaries
    ∧ ((⟨[⟨1, some 0, "a".data, 50⟩, ⟨2, some 5, "b".data, 150⟩],
          [⟨0, "d".data, 100⟩, ⟨5, "g".data, 200⟩]⟩ : Store),
        RecapOutcome.committed,
        [RecapEffect.oracleCall, RecapEffect.storeWrite]).1.summaries.map (fun x => x.id)
      = w4store.summaries.map (fun x => x.id) :=
  summary_link_stability w4env w4store ⟨1, some 0, "a".data, 50⟩ 100
    (by decide) (by decide) (by decide) (by decide) _ (by decide)

/-- C7 (amended): the locally-skipped errors are the batcher's write failure,
the summarizer's read, oracle and insert failures, and the recap tick's
oracle and transaction failures — each leaves the stage's state unchanged and
the loop continues.  But contrary to the blanket policy, a segment-open or
channel-send failure during rotation panics the batcher's task, and a failed
watermark or eligibility query panics the recap task; a step that needs no
rotation cannot panic. -/
theorem error_policy :
    (∀ (threshold : Nat) (st : BatcherState) (m : Msg),
      ingest threshold ⟨true, true, false⟩ st m
        = some (if st.currFileTokenCount + m.content.length / CHARS_PER_TOKEN > threshold
            then rotatedState st else st))
    ∧ (∀ (threshold : Nat) (env : BatcherEnv) (st : BatcherState) (m : Msg),
      st.currFileTokenCount + m.content.length / CHARS_PER_TOKEN > threshold →
      (env.openOk = false ∨ env.sendOk = false) →
      ingest threshold env st m = none)
    ∧ (∀ (threshold : Nat) (env : BatcherEnv) (st : BatcherState) (m : Msg),
      st.currFileTokenCount + m.content.length / CHARS_PER_TOKEN ≤ threshold →
      (ingest threshold env st m).isSome = true)
    ∧ (∀ (env : SummEnv) (fs : List (Nat × List Char)) (ss : List Summary) (i : Nat),
      (env.readOk = false
          ∨ List.lookup i fs = none
          ∨ (∃ c, List.lookup i fs = some c ∧ env.oracle c = Except.error ())
          ∨ env.insertOk = false) →
      (summarizerStep env fs ss i).1 = fs ∧ (summarizerStep env fs ss i).2.1 = ss)
    ∧ (∀ (env : RecapEnv) (st : Store),
      (env.fetchLastOk = false ∨ env.fetchSummariesOk = false) →
      recapTick env st = none)
    ∧ (∀ (env : RecapEnv) (st : Store) (r : Store × RecapOutcome × List RecapEffect),
      recapTick env st = some r → r.2.1 ≠ RecapOutcome.committed → r.1 = st) := by
  refine ⟨?_, ?_, ?_, ?_, ?_, ?_⟩
  · intro threshold st m
    rw [ingest]
    by_cases hgt : st.currFileTokenCount + m.content.length / CHARS_PER_TOKEN > threshold
    · simp [hgt]
    · simp [hgt]
  · intro threshold env st m hgt hflag
    rw [ingest]
    rcases hflag with hf | hf
    · simp [hgt, hf]
    · rcases ho : env.openOk with _ | _
      · simp [hgt, ho]
      · simp [hgt, ho, hf]
  · intro threshold env st m hle
    rw [ingest]
    have hno : ¬ (st.currFileTokenCount + m.content.length / CHARS_PER_TOKEN
        > threshold) := by omega
    rcases hw : env.writeOk with _ | _ <;> simp [hno, hw]
  · intro env fs ss i hcase
    rcases hcase with hf | hf | ⟨c, hl, ho⟩ | hf
    · have hs := summarizerStep_read_fail env fs ss i (by simp [hf])
      rw [hs]
      exact ⟨rfl, rfl⟩
    · rcases hro : env.readOk with _ | _
      · have hs := summarizerStep_read_fail env fs ss i (by simp [hro])
        rw [hs]
        exact ⟨rfl, rfl⟩
      · have hs := summarizerStep_read_fail env fs ss i (by simp [hro, hf])
        rw [hs]
        exact ⟨rfl, rfl⟩
    · rcases hro : env.readOk with _ | _
      · have hs := summarizerStep_read_fail env fs ss i (by simp [hro])
        rw [hs]
        exact ⟨rfl, rfl⟩
      · have hs := summarizerStep_oracle_fail env fs ss i c (by simp [hro, hl]) ho
        rw [hs]
        exact ⟨rfl, rfl⟩
    · rcases hscr : (if env.readOk then List.lookup i fs else none) with _ | c
      · have hs := summarizerStep_read_fail env fs ss i hscr
        rw [hs]
        exact ⟨rfl, rfl⟩
      · rcases horeq : env.oracle c with e | t
        · cases e
          have hs := summarizerStep_oracle_fail env fs ss i c hscr horeq
          rw [hs]
          exact ⟨rfl, rfl⟩
        · have hs := summarizerStep_insert_fail env fs ss i c t hscr horeq hf
          rw [hs]
          exact ⟨rfl, rfl⟩
  · intro env st hflag
    rcases hflag with hf | hf
    · rw [recapTick, if_neg (by simp [hf])]
    · rcases hf1 : env.fetchLastOk with _ | _
      · rw [recapTick, if_neg (by simp [hf1])]
      · rw [recapTick, if_pos hf1, if_neg (by simp [hf])]
  · intro env st r hr hnc
    rcases hf1 : env.fetchLastOk with _ | _
    · rw [recapTick, if_neg (by simp [hf1])] at hr
      exact Option.noConfusion hr
    · rcases hf2 : env.fetchSummariesOk with _ | _
      · rw [recapTick, if_pos hf1, if_neg (by simp [hf2])] at hr
        exact Option.noConfusion hr
      · have hc := recapTick_char env st hf1 hf2
        rcases hc with ⟨-, he⟩ | ⟨-, -, he⟩ | ⟨dtext, -, -, ⟨-, he⟩ | ⟨st2, -, he⟩⟩
        · rw [he] at hr
          cases hr
          rfl
        · rw [he] at hr
          cases hr
          rfl
        · rw [he] at hr
          cases hr
          rfl
        · rw [he] at hr
          cases hr
          exact absurd rfl hnc

/-- The message of the C7 counterexample: 4 characters, one token. -/
def c7msg : Msg := ⟨"t".data, "a".data, "abcd".data⟩

/-- C7 counterexample: a channel-send failure during rotation terminates the
batcher's task (the code unwraps it), and a failed watermark query terminates
the recap task — contradicting "no such error terminates the stage's task". -/
theorem error_policy_counterexample :
    ingest 0 ⟨true, false, true⟩ initState c7msg = none
    ∧ recapTick ⟨false, true, fun _ => Except.ok [], ⟨true, fun _ => true, true, 0, 0⟩⟩
        ⟨[], []⟩ = none := by
  exact ⟨by decide, by decide⟩

/-! ## Discovery characterization -/

/-- Any fuel at least the string's length gives the same trim result. -/
lemma trimStartGo_fuel (pat : List Char) : ∀ (fuel1 fuel2 : Nat) (s : List Char),
    s.length ≤ fuel1 → s.length ≤ fuel2 →
    trimStartGo pat fuel1 s = trimStartGo pat fuel2 s := by
  intro fuel1
  induction fuel1 with
  | zero =>
    intro fuel2 s h1 h2
    have hs : s = [] := List.length_eq_zero.mp (Nat.le_zero.mp h1)
    subst hs
    cases fuel2 with
    | zero => rfl
    | succ f =>
      rw [trimStartGo, trimStartGo]
      by_cases hp : (pat.isPrefixOf [] && !pat.isEmpty) = true
      · rw [if_pos hp]
        rcases pat with _ | ⟨c, t⟩
        · simp at hp
        · simp [List.isPrefixOf] at hp
      · rw [if_neg hp]
  | succ f1 ih =>
    intro fuel2 s h1 h2
    cases fuel2 with
    | zero =>
      have hs : s = [] := List.length_eq_zero.mp (Nat.le_zero.mp h2)
      subst hs
      rw [trimStartGo, trimStartGo]
      by_cases hp : (pat.isPrefixOf [] && !pat.isEmpty) = true
      · rw [if_pos hp]
        rcases pat with _ | ⟨c, t⟩
        · simp at hp
        · simp [List.isPrefixOf] at hp
      · rw [if_neg hp]
    | succ f2 =>
      rw [trimStartGo, trimStartGo]
      by_cases hp : (pat.isPrefixOf s && !pat.isEmpty) = true
      · rw [if_pos hp, if_pos hp]
        have hp2 := hp
        simp only [Bool.and_eq_true] at hp2
        have hpre : pat.length ≤ s.length :=
          (List.isPrefixOf_iff_prefix.mp hp2.1).length_le
        have hne : pat ≠ [] := by
          have := hp2.2
          simpa using this
        have hlen : (s.drop pat.length).length ≤ f1 := by
          rw [List.length_drop]
          have : 1 ≤ pat.length := List.length_pos.mpr hne
          omega
        have hlen2 : (s.drop pat.length).length ≤ f2 := by
          rw [List.length_drop]
          have h3 : 1 ≤ pat.length := List.length_pos.mpr hne
          have h4 : 1 ≤ s.length := le_trans h3 hpre
          omega
        exact ih f2 _ hlen hlen2
      · rw [if_neg hp, if_neg hp]

/-- Trimming stops at a string the pattern is no prefix of. -/
lemma trimStartMatches_of_no_match (pat s : List Char) (h : pat.isPrefixOf s = false) :
    trimStartMatches pat s = s := by
  rw [trimStartMatches]
  cases hl : s.length with
  | zero => rfl
  | succ n =>
    rw [trimStartGo, h]
    simp

/-- Trimming strips one leading copy of the pattern and goes on. -/
lemma trimStartMatches_strip (pat t : List Char) (hne : pat ≠ []) :
    trimStartMatches pat (pat ++ t) = trimStartMatches pat t := by
  rw [trimStartMatches, trimStartMatches]
  have hlen : (pat ++ t).length = pat.length + t.length := List.length_append pat t
  have hpos : 1 ≤ pat.length := List.length_pos.mpr hne
  cases hc : (pat ++ t).length with
  | zero => omega
  | succ n =>
    rw [trimStartGo]
    have hp : (pat.isPrefixOf (pat ++ t) && !pat.isEmpty) = true := by
      rw [isPrefixOfAppendSelf]
      simpa using hne
    rw [if_pos hp, List.drop_left]
    exact trimStartGo_fuel pat n t.length t (by omega) le_rfl

/-- On a canonical name `messages_<digits>.txt` the code's repeated trimming
and the spec's single-strip reading agree: both parse the digit block. -/
lemma parseLogIndex_canonical (mid : List Char) (hdig : mid.all Char.isDigit = true) :
    parseLogIndex ("messages_".data ++ mid ++ ".txt".data) = parseUsize mid
    ∧ specParseLogIndex ("messages_".data ++ mid ++ ".txt".data) = parseUsize mid := by
  have hmNotDigit : ∀ x ∈ mid, x ≠ 'm' := by
    intro x hx hm
    have hd := List.all_eq_true.mp hdig x hx
    rw [hm] at hd
    exact absurd hd (by decide)
  have htNotDigit : ∀ x ∈ mid, x ≠ 't' := by
    intro x hx hm
    have hd := List.all_eq_true.mp hdig x hx
    rw [hm] at hd
    exact absurd hd (by decide)
  have hpre : ("messages_".data.isPrefixOf
      ("messages_".data ++ mid ++ ".txt".data)) = true := by
    rw [List.append_assoc]
    exact isPrefixOfAppendSelf _ _
  have hsuf : (".txt".data.isSuffixOf
      ("messages_".data ++ mid ++ ".txt".data)) = true := by
    rw [List.isSuffixOf, List.reverse_append, List.reverse_append]
    exact isPrefixOfAppendSelf _ _
  have hnostart : ("messages_".data.isPrefixOf (mid ++ ".txt".data)) = false := by
    cases hm : mid with
    | nil => rfl
    | cons d rest =>
      have hd : d ≠ 'm' := hmNotDigit d (by rw [hm]; exact List.mem_cons_self d rest)
      rw [List.cons_append]
      exact isPrefixOfConsNe _ _ hd
  have htrim1 : trimStartMatches "messages_".data
      ("messages_".data ++ mid ++ ".txt".data) = mid ++ ".txt".data := by
    rw [List.append_assoc, trimStartMatches_strip _ _ (by decide),
      trimStartMatches_of_no_match _ _ hnostart]
  have hnoend : (("txt.").data.isPrefixOf mid.reverse) = false := by
    cases hm : mid.reverse with
    | nil => rfl
    | cons d rest =>
      have hd : d ≠ 't' := by
        apply htNotDigit
        rw [← List.mem_reverse, hm]
        exact List.mem_cons_self d rest
      exact isPrefixOfConsNe _ _ hd
  have htrim2 : trimEndMatches ".txt".data (mid ++ ".txt".data) = mid := by
    rw [trimEndMatches, List.reverse_append]
    have hrev : (".txt".data).reverse = ("txt.").data := by decide
    rw [hrev, trimStartMatches_strip _ _ (by decide),
      trimStartMatches_of_no_match _ _ hnoend, List.reverse_reverse]
  constructor
  · rw [parseLogIndex, if_pos (by rw [hpre, hsuf]; rfl), htrim1, htrim2]
  · rw [specParseLogIndex, if_pos (by rw [hpre, hsuf]; rfl)]
    have hdrop : (("messages_".data ++ mid ++ ".txt".data).drop
        ("messages_".data.length)) = mid ++ ".txt".data := by
      rw [List.append_assoc, List.drop_left]
    rw [hdrop]
    have hlen : (mid ++ ".txt".data).length - (".txt".data).length = mid.length := by
      rw [List.length_append]
      simp
    rw [hlen, List.take_left]

/-- C9 (amended): file names are filtered by the `messages_`/`.txt` affix
check, the embedded index is obtained by stripping ALL leading `messages_`
and ALL trailing `.txt` repetitions (on canonical names `messages_<digits>.txt`
this agrees with the spec's single-strip reading), discovery returns the
maximum such index (`none`, adopted as 0, when no name parses), and the
batcher adopts that index and recomputes its count by replaying the adopted
file through the Token Estimator. -/
theorem discovery_spec :
    (∀ mid : List Char, mid.all Char.isDigit = true →
      parseLogIndex ("messages_".data ++ mid ++ ".txt".data) = parseUsize mid
      ∧ specParseLogIndex ("messages_".data ++ mid ++ ".txt".data) = parseUsize mid)
    ∧ (∀ names : List (List Char),
      (find_last_log_file_index names = none ↔ names.filterMap parseLogIndex = [])
      ∧ ∀ k, find_last_log_file_index names = some k →
          k ∈ names.filterMap parseLogIndex
          ∧ ∀ j ∈ names.filterMap parseLogIndex, j ≤ k)
    ∧ (∀ dir : List (List Char × List Char),
      (initBatcher dir).logFileIndex
          = (find_last_log_file_index (dir.map Prod.fst)).getD 0
      ∧ (initBatcher dir).currFileTokenCount
          = estimate_token_count (initBatcher dir).activeFile) := by
  refine ⟨parseLogIndex_canonical, ?_, ?_⟩
  · intro names
    constructor
    · rw [find_last_log_file_index]
      exact List.max?_eq_none_iff
    · intro k hk
      rw [find_last_log_file_index] at hk
      exact List.max?_eq_some_iff'.mp hk
  · intro dir
    exact ⟨rfl, rfl⟩

/-- C9 counterexample: the doubled name `messages_messages_9.txt` does not
match the spec's `messages_<index>.txt` reading (its middle does not parse),
yet the code's repeated trimming turns it into index 9, so the discovered
maximum is 9 where the spec's reading gives 1. -/
theorem discovery_counterexample :
    find_last_log_file_index
        ["messages_messages_9.txt".data, "messages_1.txt".data] = some 9
    ∧ specDiscoverIndex
        ["messages_messages_9.txt".data, "messages_1.txt".data] = some 1
    ∧ ¬ ((some 9 : Option Nat) = some 1) := by
  exact ⟨by decide, by decide, by decide⟩

/-- C10 (amended): the offset is computed as `count * (page - 1)` in `usize`
arithmetic, so the query has no defined result at `page = 0` (underflow) —
reachable from the public query parameters — and, beyond the claim, also none
when the product overflows `usize`; for every `page ≥ 1` whose offset and
count stay below `2^63` (so the `as i64` casts stay non-negative) it returns
page `page` of `count` summaries ordered by timestamp descending. -/
theorem latest_page_spec :
    (∀ (st : Store) (count : Nat), fetch_latest_summaries st count 0 = none)
    ∧ (∀ (st : Store) (count page : Nat), 1 ≤ page → count * (page - 1) < 2 ^ 63 →
      count < 2 ^ 63 →
      fetch_latest_summaries st count page
        = some (((summariesDesc st).drop (count * (page - 1))).take count)) := by
  constructor
  · intro st count
    rw [fetch_latest_summaries]
    have h0 : checkedSub 0 1 = none := by decide
    rw [h0]
  · intro st count page hpage hoff hcount
    have hsub : checkedSub page 1 = some (page - 1) := by
      rw [checkedSub, if_pos hpage]
    have hmul : checkedMul count (page - 1) = some (count * (page - 1)) := by
      rw [checkedMul, if_pos]
      calc count * (page - 1) < 2 ^ 63 := hoff
        _ < 2 ^ 64 := by norm_num
    have hoffI : toI64 (count * (page - 1)) = ((count * (page - 1) : Nat) : Int) := by
      rw [toI64, Nat.mod_eq_of_lt (by calc count * (page - 1) < 2 ^ 63 := hoff
        _ < 2 ^ 64 := by norm_num)]
      rw [if_pos hoff]
    have hcntI : toI64 count = ((count : Nat) : Int) := by
      rw [toI64, Nat.mod_eq_of_lt (by calc count < 2 ^ 63 := hcount
        _ < 2 ^ 64 := by norm_num)]
      rw [if_pos hcount]
    have hneg : ¬ (((count : Nat) : Int) < 0) := by simp
    simp only [fetch_latest_summaries, hsub, hmul, hoffI, hcntI, hneg, if_false,
      Int.toNat_natCast]

/-- The store of the C10 counterexample. -/
def c10store : Store := ⟨[⟨1, none, "s".data, 5⟩], []⟩

/-- C10 counterexample: at `count = 2^32` and `page = 2^32 + 1` (both valid
`usize` query parameters with `page ≥ 1`) the offset multiplication overflows
`usize`, so the code has no result where the claimed behavior — page `page`
of `count` summaries, here the empty page — is `some []`. -/
theorem latest_page_counterexample :
    fetch_latest_summaries c10store (2 ^ 32) (2 ^ 32 + 1) = none
    ∧ ((summariesDesc c10store).drop (2 ^ 32 * ((2 ^ 32 + 1) - 1))).take (2 ^ 32) = []
    ∧ ¬ ((none : Option (List Summary)) = some []) := by
  exact ⟨by decide, by decide, by decide⟩
